import Mathlib

/-!
Shallow embedding of the SmartShoppingAssistant crawl-and-rank pipeline.

Python floats are modelled as exact rationals (`ℚ`), Python `int(...)` on a
nonnegative value as natural-number floor division, Python `round(x, 2)` as
rounding `100 * x` to the nearest integer, `None`/`pd.NA` as `Option`, and
Python lists / pandas DataFrames of listings as Lean lists.  Regular
expressions in the source are specific enough (alternations of literal words,
`\s*`, `\d+`) that they are embedded as explicit scanning functions with the
same leftmost-match and alternation-order semantics.
-/

namespace SmartShopping

/-! ### Character and string helpers -/

/-- Lower-cased character list of a string: model of Python `s.lower()`
(the repository only lower-cases ASCII/Arabic text, where `Char.toLower`
agrees with Python). -/
def lc (s : String) : List Char := s.data.map Char.toLower

/-- Boolean prefix test on character lists. -/
def isPrefixB : List Char → List Char → Bool
  | [], _ => true
  | _ :: _, [] => false
  | a :: as, b :: bs => a == b && isPrefixB as bs

/-- Boolean substring test: model of Python `needle in hay` on strings. -/
def containsSub (needle : List Char) : List Char → Bool
  | [] => needle.isEmpty
  | c :: t => isPrefixB needle (c :: t) || containsSub needle t

/-- Whitespace characters recognised by Python `str.strip` / regex `\s`
for ASCII text. -/
def whitespaceChars : List Char := [' ', '\t', '\n', '\r', '\x0b', '\x0c']

def isSpaceChar (c : Char) : Bool := whitespaceChars.contains c

/-- `round(q, 2)` of Python, modelled as rounding `100 * q` to the nearest
integer over exact rationals. -/
def round2 (q : ℚ) : ℚ := (round (q * 100) : ℤ) / 100

/-- Maximal digit prefix of a character list, with the remainder
(model of the greedy regex group `(\d+)` or `(\d*)`). -/
def takeDigits : List Char → List Char × List Char
  | [] => ([], [])
  | c :: cs =>
    if c.isDigit then
      let p := takeDigits cs
      (c :: p.1, p.2)
    else ([], c :: cs)

/-- Numeric value of a digit string: model of Python `int(...)` on a string
of decimal digits. -/
def digitsToNat (ds : List Char) : ℕ := ds.foldl (fun a c => 10 * a + (c.toNat - 48)) 0

/-- Skip leading whitespace: model of the greedy regex `\s*`. -/
def skipSpaces : List Char → List Char
  | [] => []
  | c :: cs => if isSpaceChar c then skipSpaces cs else c :: cs

/-! ### Data model

`Listing` is a row of the normalized listing table as consumed by the
ranking engine (`product_name`, numeric `price`, numeric `rating_numeric`).
`PriceRange` is the `{"min", "max", "target"}` dictionary produced by the
price-range extractor, and `QueryAttrs` the attribute dictionary produced
by `extract_enhanced_attributes` (only the fields the ranking engine
reads). -/

structure Listing where
  product_name : String
  price : ℚ
  rating_numeric : ℚ
deriving DecidableEq

structure PriceRange where
  min : Option ℕ
  max : Option ℕ
  target : Option ℕ
deriving DecidableEq

structure QueryAttrs where
  product : Option String
  brand : Option String
  color : Option String
  price_range : PriceRange
  features : List (String × String)
  quality_level : Option String
deriving DecidableEq

/-! ### Ranking engine (`search/search_engine_enhanced.py`) -/

/-- Accessory keyword blacklist of `is_accessory`. -/
def accessory_keywords : List String :=
  ["case", "cover", "كفر", "جراب",
   "screen protector", "واقي شاشة", "حماية",
   "charger", "شاحن", "cable", "كابل",
   "adapter", "محول", "earphone", "سماعة",
   "holder", "حامل", "stand", "ستاند",
   "skin", "sticker", "ملصق",
   "tempered glass", "زجاج",
   "tpu", "silicone", "سيليكون",
   "pouch", "جيب", "bag", "حقيبة",
   "strap", "حزام", "band"]

/-- `is_accessory`: the lower-cased product name contains some blacklisted
keyword. -/
def is_accessory (product_name : String) : Bool :=
  accessory_keywords.any (fun kw => containsSub kw.data (lc product_name))

/-- Device categories for which the accessory filter applies. -/
def deviceTypes : List String := ["phone", "laptop", "tablet", "watch"]

/-- `type_patterns`: each category's regex is an alternation of literal
words matched case-insensitively, i.e. a case-insensitive substring test
against any of the listed tokens. -/
def type_patterns : List (String × List String) :=
  [("phone", ["smartphone", "mobile", "galaxy", "iphone", "redmi", "note",
              "pro", "plus", "max", "ultra"]),
   ("laptop", ["laptop", "notebook", "macbook", "thinkpad", "ideapad", "vivobook"]),
   ("shoes", ["shoe", "sneaker", "boot", "nike", "adidas", "puma", "running"]),
   ("watch", ["watch", "smartwatch", "fitbit", "garmin"])]

/-- `brand_variations` of `calculate_relevance_score`. -/
def brand_variations : List (String × List String) :=
  [("samsung", ["galaxy", "samsung"]),
   ("apple", ["iphone", "apple"]),
   ("xiaomi", ["redmi", "poco", "xiaomi"])]

/-- `type_keywords` of `calculate_relevance_score`. -/
def type_keywords : List (String × List String) :=
  [("phone", ["phone", "smartphone", "mobile"]),
   ("laptop", ["laptop", "notebook"]),
   ("shoes", ["shoe", "sneaker", "boot"]),
   ("watch", ["watch"])]

/-- Brand component (step 1) of `calculate_relevance_score`: exact substring
match scores 30, a known alias partial match scores 20. -/
def brandScore (brand : Option String) (nameL : List Char) : ℚ :=
  match brand with
  | none => 0
  | some b =>
    if containsSub (lc b) nameL then 30
    else if ((brand_variations.lookup b).getD [b]).any
             (fun v => containsSub (lc v) nameL) then 20
    else 0

/-- Price-fit component (step 2) of `calculate_relevance_score`.  Python
truthiness of the optional bounds (`if max_price:` etc.) makes a bound of
`0` behave like an absent bound. -/
def priceFitScore (pr : PriceRange) (price : ℚ) : ℚ :=
  if 0 < price then
    (match pr.max with
     | some m =>
       if m = 0 then 0
       else if price ≤ (m : ℚ) then
         if 7/10 < price / (m : ℚ) then 25
         else if 5/10 < price / (m : ℚ) then 20
         else 15
       else 0
     | none => 0)
    + (match pr.min with
       | some m => if m ≠ 0 ∧ (m : ℚ) ≤ price then 5 else 0
       | none => 0)
    + (match pr.target with
       | some t =>
         if t = 0 then 0
         else if |price - (t : ℚ)| / (t : ℚ) ≤ 1/10 then 10
         else if |price - (t : ℚ)| / (t : ℚ) ≤ 2/10 then 5
         else 0
       | none => 0)
  else 0

/-- Feature component (step 3): 5 points per feature value occurring in the
product name, capped at 20. -/
def featureScore (features : List (String × String)) (nameL : List Char) : ℚ :=
  min (5 * ((features.filter (fun kv => containsSub (lc kv.2) nameL)).length : ℚ)) 20

/-- `calculate_relevance_score`: rule score of a listing for the extracted
query attributes.  Ratios such as `0.7` are modelled as exact rationals. -/
def calculate_relevance_score (row : Listing) (attrs : QueryAttrs) : ℚ :=
  let nameL := lc row.product_name
  let s1 := brandScore attrs.brand nameL
  let s2 := priceFitScore attrs.price_range row.price
  let s3 := featureScore attrs.features nameL
  let s4 := if 0 < row.rating_numeric then row.rating_numeric / 5 * 15 else 0
  let s5 := match attrs.color with
            | some c => if containsSub (lc c) nameL then 10 else 0
            | none => 0
  let s6 := match attrs.product with
            | some p =>
              if ((type_keywords.lookup p).getD [p]).any
                   (fun k => containsSub k.data nameL) then 5 else 0
            | none => 0
  let s7 := match attrs.quality_level with
            | some q =>
              if q = "cheap" ∧ row.price ≠ 0 ∧ row.price < 5000 then 5
              else if q = "premium" ∧ row.price ≠ 0 ∧ 15000 < row.price then 5
              else 0
            | none => 0
  round2 (s1 + s2 + s3 + s4 + s5 + s6 + s7)

/-- Accessory-removal stage of `search_products_enhanced`: applied
unconditionally when the extracted category is a device type. -/
def accessoryStage (product : Option String) (l : List Listing) : List Listing :=
  match product with
  | some p =>
    if p ∈ deviceTypes then l.filter (fun x => ! is_accessory x.product_name) else l
  | none => l

/-- The conservative-backoff pattern of `search_products_enhanced`: commit
a filter's result only when it is non-empty, otherwise keep the input
unchanged. -/
def backoff (f : Listing → Bool) (l : List Listing) : List Listing :=
  let filtered := l.filter f
  if filtered.isEmpty then l else filtered

/-- Category-keyword stage: the regex filter's result is committed only when
non-empty (conservative backoff). -/
def categoryStage (product : Option String) (l : List Listing) : List Listing :=
  match product with
  | none => l
  | some p =>
    match type_patterns.lookup p with
    | none => l
    | some toks =>
      backoff (fun x => toks.any (fun t => containsSub (lc t) (lc x.product_name))) l

/-- Brand-substring stage: committed only when non-empty (conservative
backoff). -/
def brandStage (brand : Option String) (l : List Listing) : List Listing :=
  match brand with
  | none => l
  | some b => backoff (fun x => containsSub (lc b) (lc x.product_name)) l

/-- Hard max-price bound (`result[result["price"] <= max]`), skipped when the
bound is absent or `0` (false in Python truthiness). -/
def maxPriceFilter : Option ℕ → List Listing → List Listing
  | some m, l => if m = 0 then l else l.filter (fun x => decide (x.price ≤ (m : ℚ)))
  | none, l => l

/-- Hard min-price bound, skipped when absent or `0`. -/
def minPriceFilter : Option ℕ → List Listing → List Listing
  | some m, l => if m = 0 then l else l.filter (fun x => decide ((m : ℚ) ≤ x.price))
  | none, l => l

/-- Main filter pass of `search_products_enhanced`: accessory removal, then
the two conservative-backoff filters, then the hard price bounds. -/
def mainFilter (df : List Listing) (attrs : QueryAttrs) : List Listing :=
  minPriceFilter attrs.price_range.min
    (maxPriceFilter attrs.price_range.max
      (brandStage attrs.brand
        (categoryStage attrs.product
          (accessoryStage attrs.product df))))

/-- Fallback pass ("relaxing constraints"): restart from the full set,
reapply the accessory filter and only the max-price bound. -/
def fallbackFilter (df : List Listing) (attrs : QueryAttrs) : List Listing :=
  maxPriceFilter attrs.price_range.max (accessoryStage attrs.product df)

/-- Boolean ordering used for the final sort: relevance score descending,
ties broken by price ascending
(`sort_values(by=["relevance_score", "price"], ascending=[False, True])`). -/
def scoreLe (attrs : QueryAttrs) (a b : Listing) : Bool :=
  decide (calculate_relevance_score b attrs < calculate_relevance_score a attrs
    ∨ (calculate_relevance_score a attrs = calculate_relevance_score b attrs
        ∧ a.price ≤ b.price))

/-- `search_products_enhanced`: filter, fall back when empty, score, sort,
truncate to `top_n`. -/
def search_products_enhanced (df : List Listing) (attrs : QueryAttrs) (top_n : ℕ) :
    List Listing :=
  if df.isEmpty then df
  else
    let result := mainFilter df attrs
    let result := if result.isEmpty then fallbackFilter df attrs else result
    let result := if result.isEmpty then result else result.mergeSort (scoreLe attrs)
    result.take top_n

/-! ### Price-range extraction (`nlp/attribute_extraction_enhanced.py`)

Each entry of `PRICE_PATTERNS` is a regex of the shape
`(?:w1|w2|...)\s*(\d+)` (or, for the range pattern, with a second separator
alternation and number).  `re.search` scans positions left to right; at a
position the alternation's words are tried in order, and a word that matches
but is not followed by `\s*(\d+)` backtracks to the next word.  The greedy
`(\d+)` group is the maximal digit run (no separator word begins with a
digit, so regex backtracking inside the number group can never succeed). -/

/-- At one position: try the alternation words in order; on a word match,
require `\s*` then a non-empty digit run, else backtrack to the next word. -/
def matchOneAt (alts : List String) (cs : List Char) : Option ℕ :=
  match alts with
  | [] => none
  | a :: rest =>
    if a.data.isPrefixOf cs then
      let p := takeDigits (skipSpaces (cs.drop a.data.length))
      if p.1.isEmpty then matchOneAt rest cs
      else some (digitsToNat p.1)
    else matchOneAt rest cs

/-- `re.search` for a one-number pattern: leftmost position wins. -/
def searchOne (alts : List String) : List Char → Option ℕ
  | [] => matchOneAt alts []
  | c :: cs =>
    match matchOneAt alts (c :: cs) with
    | some n => some n
    | none => searchOne alts cs

/-- At one position: the two-number range pattern
`(?:alt)\s*(\d+)\s*(?:sep)\s*(\d+)`. -/
def matchTwoAt (alts seps : List String) (cs : List Char) : Option (ℕ × ℕ) :=
  match alts with
  | [] => none
  | a :: rest =>
    if a.data.isPrefixOf cs then
      let p := takeDigits (skipSpaces (cs.drop a.data.length))
      if p.1.isEmpty then matchTwoAt rest seps cs
      else
        match matchOneAt seps (skipSpaces p.2) with
        | some n2 => some (digitsToNat p.1, n2)
        | none => matchTwoAt rest seps cs
  else matchTwoAt rest seps cs

/-- `re.search` for the range pattern. -/
def searchTwo (alts seps : List String) : List Char → Option (ℕ × ℕ)
  | [] => matchTwoAt alts seps []
  | c :: cs =>
    match matchTwoAt alts seps (c :: cs) with
    | some r => some r
    | none => searchTwo alts seps cs

/-- Alternation words of the four `PRICE_PATTERNS`, in source order. -/
def underAlts : List String := ["تحت", "اقل من", "under", "below", "less than"]

def overAlts : List String := ["فوق", "اكثر من", "above", "over", "more than"]

def rangeAlts : List String := ["من", "between", "from"]

def rangeSeps : List String := ["الى", "لـ", "to", "and", "-"]

def aroundAlts : List String := ["حوالي", "تقريبا", "around", "approximately", "about"]

/-- `extract_price_range`: all four patterns are tried in order (there is no
`break`), each matching pattern overwriting the fields it sets.  Python
`int(target * 0.8)` / `int(target * 1.2)` is modelled as the exact floor
`t * 8 / 10` / `t * 12 / 10` in natural-number division. -/
def extract_price_range (text : String) : PriceRange :=
  let t := lc text
  let r0 : PriceRange := ⟨none, none, none⟩
  let r1 := match searchOne underAlts t with
            | some n => { r0 with max := some n }
            | none => r0
  let r2 := match searchOne overAlts t with
            | some n => { r1 with min := some n }
            | none => r1
  let r3 := match searchTwo rangeAlts rangeSeps t with
            | some p => { r2 with min := some p.1, max := some p.2 }
            | none => r2
  match searchOne aroundAlts t with
  | some n => { r3 with target := some n, min := some (n * 8 / 10), max := some (n * 12 / 10) }
  | none => r3

/-! ### Rating extraction (`app.py`, `extract_rating_numeric`) -/

/-- Raw cell values reaching the cleaners: missing (`None`/`NaN`), an
already-numeric value, or a string. -/
inductive RawValue where
  | missing
  | num (q : ℚ)
  | str (s : String)
deriving DecidableEq

/-- Leftmost match of the regex `(\d+\.?\d*)`, as a rational: maximal digit
run, an optional dot, then a maximal (possibly empty) digit run. -/
def firstNumber : List Char → Option ℚ
  | [] => none
  | c :: rest =>
    if c.isDigit then
      let p := takeDigits (c :: rest)
      match p.2 with
      | '.' :: r2 =>
        let q := takeDigits r2
        some (digitsToNat p.1 + (digitsToNat q.1 : ℚ) / 10 ^ q.1.length)
      | _ => some (digitsToNat p.1)
    else firstNumber rest

/-- `extract_rating_numeric`: missing values give `0.0`; a non-string value
is returned by `float(...)` unchanged; a string yields its first number
clamped by `min(5.0, max(0.0, val))`, or `0.0` when no number occurs. -/
def extract_rating_numeric : RawValue → ℚ
  | .missing => 0
  | .num q => q
  | .str s =>
    match firstNumber s.data with
    | some v => min 5 (max 0 v)
    | none => 0

/-! ### Price cleaning (`nlp/utils.py`, `clean_price_egp`) -/

/-- Currency tokens removed by
`re.sub(r'(EGP|ج\.م|جنيه|POUND|LE|£)', '', text, flags=re.IGNORECASE)`,
in the regex's alternation order.  The text has already been upper-cased, so
the case-insensitive match reduces to matching these upper-case forms. -/
def currencyTokens : List (List Char) :=
  [['E', 'G', 'P'], ['ج', '.', 'م'], ['ج', 'ن', 'ي', 'ه'],
   ['P', 'O', 'U', 'N', 'D'], ['L', 'E'], ['£']]

/-- Non-overlapping left-to-right removal of every currency-token
occurrence, alternatives tried in the regex's order at each position.  The
fuel argument (one unit per consumed character; every currency token is
non-empty, so each step consumes at least one) keeps the recursion
structural. -/
def stripCurrencyAux : ℕ → List Char → List Char
  | _, [] => []
  | 0, l => l
  | fuel + 1, c :: cs =>
    match currencyTokens.find? (fun t => t.isPrefixOf (c :: cs)) with
    | some t => stripCurrencyAux fuel ((c :: cs).drop t.length)
    | none => c :: stripCurrencyAux fuel cs

def stripCurrency (l : List Char) : List Char := stripCurrencyAux l.length l

/-- Drop leading whitespace. -/
def trimLeft : List Char → List Char
  | [] => []
  | c :: cs => if isSpaceChar c then trimLeft cs else c :: cs

/-- Python `str.strip()`: drop whitespace at both ends. -/
def trimChars (l : List Char) : List Char := trimLeft (trimLeft l.reverse).reverse

/-- Python `text.split('.')`. -/
def splitOnDot : List Char → List (List Char)
  | [] => [[]]
  | c :: cs =>
    let r := splitOnDot cs
    if c = '.' then [] :: r
    else
      match r with
      | [] => [[c]]
      | h :: t => (c :: h) :: t

/-- Optional sign of the float literal. -/
def floatParseSign (cs : List Char) : ℚ × List Char :=
  match cs with
  | [] => (1, [])
  | c :: r =>
    if c == '+' then (1, r)
    else if c == '-' then (-1, r)
    else (1, c :: r)

/-- Optional fractional part (a dot followed by digits). -/
def floatParseFrac : List Char → List Char × List Char
  | '.' :: r => takeDigits r
  | r => ([], r)

/-- Optional exponent tail: the multiplicative factor it denotes, or `none`
when the remaining characters are not a valid exponent. -/
def floatParseExp : List Char → Option ℚ
  | [] => some 1
  | 'E' :: r =>
    let es : Bool × List Char :=
      match r with
      | '+' :: rr => (false, rr)
      | '-' :: rr => (true, rr)
      | rr => (false, rr)
    let ed := takeDigits es.2
    if ed.1.isEmpty || !ed.2.isEmpty then none
    else some (if es.1 then ((10 : ℚ) ^ digitsToNat ed.1)⁻¹
      else (10 : ℚ) ^ digitsToNat ed.1)
  | _ => none

/-- Python `float(...)` on the post-cleaning text (which has been
upper-cased, so an exponent marker appears as `E`): optional sign, digits
with at most one dot and at least one digit, optional exponent.  Returns
the exact rational value, `none` when the conversion raises. -/
def floatParse (cs : List Char) : Option ℚ :=
  let sp := floatParseSign cs
  let ip := takeDigits sp.2
  let fp := floatParseFrac ip.2
  if ip.1.isEmpty && fp.1.isEmpty then none
  else
    match floatParseExp fp.2 with
    | none => none
    | some e =>
      some (sp.1 * ((digitsToNat ip.1 : ℚ) + (digitsToNat fp.1 : ℚ) / 10 ^ fp.1.length) * e)

/-- First stage of the string branch of `clean_price_egp`: upper-case and
strip, remove currency tokens, strip again. -/
def cleanStage1 (s : String) : List Char :=
  trimChars (stripCurrency (trimChars (s.data.map Char.toUpper)))

/-- Second stage: merge extra dots keeping the first
(`parts[0] + '.' + ''.join(parts[1:])`), then drop commas and whitespace. -/
def cleanStage2 (text : List Char) : List Char :=
  let parts := splitOnDot text
  let text := if 2 < parts.length
              then parts.headD [] ++ '.' :: (parts.drop 1).flatten
              else text
  text.filter (fun c => !(c == ',' || isSpaceChar c))

/-- String branch of `clean_price_egp`: clean the text, convert, and accept
only values in `[0.01, 1_000_000]` (rounded to two decimals). -/
def cleanPriceString (s : String) : Option ℚ :=
  let text := cleanStage1 s
  if text.isEmpty then none
  else
    let text2 := cleanStage2 text
    if text2 = [] ∨ text2 = ['.'] then none
    else
      match floatParse text2 with
      | none => none
      | some v => if 1/100 ≤ v ∧ v ≤ 1000000 then some (round2 v) else none

/-- `clean_price_egp`: missing and empty inputs give `pd.NA`; an
already-numeric input is returned when positive (the plausibility bound is
not applied on this branch); a string goes through the cleaning pipeline. -/
def clean_price_egp : RawValue → Option ℚ
  | .missing => none
  | .num q => if 0 < q then some q else none
  | .str s => if s = "" then none else cleanPriceString s

/-- `clean_price_amazon` (`live_search.py`): a non-string is passed through
`pd.to_numeric`; a string is reduced to its digit characters (the earlier
currency/space/comma `replace` steps only remove non-digits and are
subsumed by the final `re.sub(r"[^\d]", "", x)`), then interpreted as an
integer count of minor units and divided by 100. -/
def clean_price_amazon : RawValue → Option ℚ
  | .missing => none
  | .num q => some q
  | .str s =>
    let x := s.data.filter (fun c => c.isDigit)
    if x.isEmpty then none
    else some (round2 ((digitsToNat x : ℚ) / 100))

/-! ### Multi-platform crawl orchestration (`crawl_multi_platform.py`)

Each platform adapter runs as one task; inside the task the whole
crawl-and-read is wrapped in `try/except` returning `[]` on any exception,
and the orchestrator wraps `future.result()` in a second `try/except`.  An
adapter outcome is therefore either a row list or a failure, and the
orchestrator's merge never propagates a failure.  Thread completion order
(`as_completed`) only permutes the merged rows; it is modelled here as the
fixed submission order Amazon, Noon, Jumia. -/

/-- A raw crawled row (the fields of the persisted CSV schema that the
claims mention). -/
structure RawRow where
  title : String
  price : String
  website : String
deriving DecidableEq

/-- Outcome of one platform adapter: collected rows, or a raised
exception. -/
inductive AdapterOutcome where
  | ok (rows : List RawRow)
  | failure (msg : String)
deriving DecidableEq

/-- The per-task `try/except`: a failing adapter contributes no rows. -/
def recoverAdapter : AdapterOutcome → List RawRow
  | .ok rows => rows
  | .failure _ => []

/-- `crawl_all_platforms`: merge the three adapters' contributions; each
failure is caught independently and removes only its own contribution. -/
def crawl_all_platforms (amazon noon jumia : AdapterOutcome) : List RawRow :=
  recoverAdapter amazon ++ recoverAdapter noon ++ recoverAdapter jumia

/-! ### Auxiliary notions used by the statements and proofs -/

/-- The ranking order as a proposition: higher relevance score first, ties
broken by lower price. -/
def rankRel (attrs : QueryAttrs) (a b : Listing) : Prop :=
  calculate_relevance_score b attrs < calculate_relevance_score a attrs
    ∨ (calculate_relevance_score a attrs = calculate_relevance_score b attrs
        ∧ a.price ≤ b.price)

/-- Nonempty with a non-whitespace first character. -/
def headNotSpace : List Char → Bool
  | [] => false
  | c :: _ => !isSpaceChar c

/-- `c` can begin a currency-token occurrence. -/
def tokenStartable (c : Char) : Bool :=
  currencyTokens.any (fun t =>
    match t with
    | [] => true
    | h :: _ => h == c)

/-- The decimal digit character for `d`. -/
def digitChar (d : Fin 10) : Char := Char.ofNat (48 + d.val)

def digitChars (ds : List (Fin 10)) : List Char := ds.map digitChar

/-- Value of a digit sequence. -/
def digitsVal (ds : List (Fin 10)) : ℕ := ds.foldl (fun a d => 10 * a + d.val) 0

/-- The currency token with index `i`. -/
def tokenAt (i : Fin 6) : List Char := currencyTokens.getD i.val []

inductive PriceSep where
  | comma
  | dot
deriving DecidableEq

def PriceSep.char : PriceSep → Char
  | .comma => ','
  | .dot => '.'

/-- A price string of the shape `digits [,.] digits [currency marker]`:
an integer digit group, an optional comma- or dot-separated digit group,
and an optional currency marker (with or without a space before it). -/
structure PriceForm where
  intPart : List (Fin 10)
  sep : Option (PriceSep × List (Fin 10))
  currency : Option (Bool × Fin 6)
deriving DecidableEq

/-- Well-formedness: the digit groups are nonempty. -/
def PriceForm.WF (f : PriceForm) : Prop :=
  f.intPart ≠ [] ∧ ∀ sd ∈ f.sep, sd.2 ≠ ([] : List (Fin 10))

/-- The concrete string a `PriceForm` denotes. -/
def PriceForm.render (f : PriceForm) : String :=
  ⟨digitChars f.intPart ++
   (match f.sep with
    | some sd => sd.1.char :: digitChars sd.2
    | none => []) ++
   (match f.currency with
    | some sc => (if sc.1 then [' '] else []) ++ tokenAt sc.2
    | none => [])⟩

/-- The numeric part of the rendered string (digits and separator, without
the currency marker and its optional space). -/
def numericChars (f : PriceForm) : List Char :=
  digitChars f.intPart ++
  (match f.sep with
   | some sd => sd.1.char :: digitChars sd.2
   | none => [])

/-- The number the cleaning pipeline parses out of the rendered string: a
comma is a thousands separator that is simply removed, a dot is a decimal
point. -/
def PriceForm.value (f : PriceForm) : ℚ :=
  match f.sep with
  | none => digitsVal f.intPart
  | some (.comma, d) => digitsVal (f.intPart ++ d)
  | some (.dot, d) => digitsVal f.intPart + (digitsVal d : ℚ) / 10 ^ d.length

/-! ## Theorems -/

/-- C9: if one of the three platform adapters fails during a crawl,
`crawl_all_platforms` returns the merged results of the remaining adapters
(each failure is caught independently and removes only that adapter's
contribution; the orchestrator is a total function, so no exception
reaches the caller). -/
theorem crawl_all_platforms_isolates_failures (msg : String)
    (r1 r2 r3 : List RawRow) :
    crawl_all_platforms (.failure msg) (.ok r2) (.ok r3) = r2 ++ r3 ∧
    crawl_all_platforms (.ok r1) (.failure msg) (.ok r3) = r1 ++ r3 ∧
    crawl_all_platforms (.ok r1) (.ok r2) (.failure msg) = r1 ++ r2 := by
  refine ⟨?_, ?_, ?_⟩ <;> simp [crawl_all_platforms, recoverAdapter]

/-- C10: `clean_price_egp` applies its `0.01`–`1,000,000` plausibility
bound only to string inputs: a non-string numeric input is returned
whenever positive and rejected otherwise, so a numeric `2,000,000` passes
while the string `"2000000"` is rejected as out of bound. -/
theorem clean_price_egp_numeric_bypasses_bound :
    (∀ q : ℚ, clean_price_egp (.num q) = if 0 < q then some q else none) ∧
    clean_price_egp (.num 2000000) = some 2000000 ∧
    clean_price_egp (.str "2000000") = none := by
  refine ⟨fun q => rfl, ?_, ?_⟩
  · have h : (0 : ℚ) < 2000000 := by norm_num
    simp [clean_price_egp, h]
  · show cleanPriceString "2000000" = none
    have h1 : cleanStage1 "2000000" = ['2', '0', '0', '0', '0', '0', '0'] := rfl
    have h2 : cleanStage2 ['2', '0', '0', '0', '0', '0', '0'] =
        ['2', '0', '0', '0', '0', '0', '0'] := rfl
    have h3 : floatParse ['2', '0', '0', '0', '0', '0', '0'] =
        some (1 * (((2000000 : ℕ) : ℚ) + ((0 : ℕ) : ℚ) / 10 ^ (0 : ℕ)) * 1) := rfl
    have h4 : (1 * (((2000000 : ℕ) : ℚ) + ((0 : ℕ) : ℚ) / 10 ^ (0 : ℕ)) * 1) =
        (2000000 : ℚ) := by norm_num
    rw [h4] at h3
    have h5 : ¬ ((1 : ℚ)/100 ≤ (2000000 : ℚ) ∧ (2000000 : ℚ) ≤ 1000000) := by
      norm_num
    simp only [cleanPriceString, h1, h2, h3]
    norm_num

/-- C3 counterexample: the rating extractor does not clamp non-string
numeric inputs — the numeric rating `10` is returned as `10`, outside
`[0, 5]`, refuting "for every input value the result is in `[0, 5]`". -/
theorem rating_numeric_passthrough_cex :
    extract_rating_numeric (.num 10) = 10 ∧
    ¬ extract_rating_numeric (.num 10) ≤ 5 := by
  constructor
  · rfl
  · show ¬ (10 : ℚ) ≤ 5
    norm_num

/-- C3 (amended): for string inputs the rating extractor clamps the first
numeric substring into `[0, 5]` (and yields `0` when there is none), and a
missing value yields `0`; but a non-string numeric input is returned
unchanged, without clamping. -/
theorem rating_clamp_amended (s : String) (q : ℚ) :
    0 ≤ extract_rating_numeric (.str s) ∧
    extract_rating_numeric (.str s) ≤ 5 ∧
    extract_rating_numeric (.num q) = q ∧
    extract_rating_numeric .missing = 0 := by
  refine ⟨?_, ?_, rfl, rfl⟩
  · show (0 : ℚ) ≤ match firstNumber s.data with
      | some v => min 5 (max 0 v)
      | none => 0
    generalize firstNumber s.data = r
    cases r with
    | none => norm_num
    | some v => exact le_min (by norm_num) (le_max_left 0 v)
  · show (match firstNumber s.data with
      | some v => min 5 (max 0 v)
      | none => 0) ≤ (5 : ℚ)
    generalize firstNumber s.data = r
    cases r with
    | none => norm_num
    | some v => exact min_le_left 5 _

/-- C1 counterexample: on `"under 5000 around 3000"` the first pattern
("under X") matches with `5000`, yet the later "around X" pattern is still
evaluated and overwrites the result, so the extracted range is
`{min 2400, max 3600, target 3000}` rather than `{max 5000}` — refuting
"later patterns are not evaluated and cannot change the result". -/
theorem extract_price_range_later_pattern_overwrites_cex :
    extract_price_range "under 5000 around 3000" =
      ⟨some 2400, some 3600, some 3000⟩ ∧
    (⟨some 2400, some 3600, some 3000⟩ : PriceRange) ≠ ⟨none, some 5000, none⟩ := by
  exact ⟨rfl, by decide⟩

/-- C1 (amended): all four price patterns are evaluated in their fixed
order with no short-circuit; each matching pattern populates its fields and
a later match overwrites earlier values.  In particular, whenever the final
("around X") pattern matches with value `t`, the result is exactly
`{min ⌊0.8·t⌋, max ⌊1.2·t⌋, target t}`, regardless of earlier matches. -/
theorem extract_price_range_around_overwrites (text : String) (t : ℕ)
    (h : searchOne aroundAlts (lc text) = some t) :
    extract_price_range text =
      ⟨some (t * 8 / 10), some (t * 12 / 10), some t⟩ := by
  simp only [extract_price_range, h]

/-- Witness for the amended C1 theorem at `"under 5000 around 3000"`. -/
theorem extract_price_range_around_overwrites_witness :
    searchOne aroundAlts (lc "under 5000 around 3000") = some 3000 ∧
    extract_price_range "under 5000 around 3000" =
      ⟨some 2400, some 3600, some 3000⟩ :=
  ⟨rfl, extract_price_range_around_overwrites "under 5000 around 3000" 3000 rfl⟩

/-! ### Structural lemmas about the filter stages -/

theorem backoff_ne_nil (f : Listing → Bool) {l : List Listing} (h : l ≠ []) :
    backoff f l ≠ [] := by
  simp only [backoff]
  cases hf : (l.filter f).isEmpty with
  | true => simpa using h
  | false =>
    simp only [Bool.false_eq_true, if_false]
    intro hnil
    rw [hnil] at hf
    simp at hf

theorem mem_backoff {f : Listing → Bool} {l : List Listing} {x : Listing}
    (h : x ∈ backoff f l) : x ∈ l := by
  simp only [backoff] at h
  cases hf : (l.filter f).isEmpty with
  | true => rw [hf] at h; simpa using h
  | false =>
    rw [hf] at h
    simp only [Bool.false_eq_true, if_false] at h
    exact List.mem_of_mem_filter h

theorem categoryStage_ne_nil (product : Option String) {l : List Listing}
    (h : l ≠ []) : categoryStage product l ≠ [] := by
  cases product with
  | none => exact h
  | some p =>
    simp only [categoryStage]
    cases type_patterns.lookup p with
    | none => exact h
    | some toks => exact backoff_ne_nil _ h

theorem brandStage_ne_nil (brand : Option String) {l : List Listing}
    (h : l ≠ []) : brandStage brand l ≠ [] := by
  cases brand with
  | none => exact h
  | some b =>
    simp only [brandStage]
    exact backoff_ne_nil _ h

theorem mem_categoryStage {product : Option String} {l : List Listing}
    {x : Listing} (h : x ∈ categoryStage product l) : x ∈ l := by
  cases product with
  | none => exact h
  | some p =>
    simp only [categoryStage] at h
    cases hl : type_patterns.lookup p with
    | none => rw [hl] at h; exact h
    | some toks => rw [hl] at h; exact mem_backoff h

theorem mem_brandStage {brand : Option String} {l : List Listing}
    {x : Listing} (h : x ∈ brandStage brand l) : x ∈ l := by
  cases brand with
  | none => exact h
  | some b =>
    simp only [brandStage] at h
    exact mem_backoff h

theorem mem_maxPriceFilter {m : Option ℕ} {l : List Listing} {x : Listing}
    (h : x ∈ maxPriceFilter m l) : x ∈ l := by
  cases m with
  | none => exact h
  | some m =>
    simp only [maxPriceFilter] at h
    by_cases hm : m = 0
    · rw [if_pos hm] at h; exact h
    · rw [if_neg hm] at h
      exact List.mem_of_mem_filter h

theorem mem_minPriceFilter {m : Option ℕ} {l : List Listing} {x : Listing}
    (h : x ∈ minPriceFilter m l) : x ∈ l := by
  cases m with
  | none => exact h
  | some m =>
    simp only [minPriceFilter] at h
    by_cases hm : m = 0
    · rw [if_pos hm] at h; exact h
    · rw [if_neg hm] at h
      exact List.mem_of_mem_filter h

/-- C6: in the filter phase, the category-keyword filter and the
brand-substring filter each commit their result only when non-empty, so on
any non-empty input these two filters can never produce an empty candidate
set. -/
theorem backoff_filters_preserve_nonempty (product brand : Option String)
    (l : List Listing) (h : l ≠ []) :
    brandStage brand (categoryStage product l) ≠ [] :=
  brandStage_ne_nil brand (categoryStage_ne_nil product h)

/-- Witness for C6 at a one-listing catalog whose name matches neither the
phone category tokens nor the brand. -/
theorem backoff_filters_preserve_nonempty_witness :
    ([⟨"generic item", 100, 0⟩] : List Listing) ≠ [] ∧
    brandStage (some "samsung")
      (categoryStage (some "phone") [⟨"generic item", 100, 0⟩]) ≠ [] :=
  ⟨by decide, backoff_filters_preserve_nonempty (some "phone") (some "samsung")
    [⟨"generic item", 100, 0⟩] (by decide)⟩

/-- C7: a listing whose title contains a blacklisted accessory token is
excluded from the (non-empty) main filter pass of
`search_products_enhanced` whenever the extracted category is in the device
set. -/
theorem accessory_excluded_from_filter_pass
    (df : List Listing) (attrs : QueryAttrs) (x : Listing) (p : String)
    (hp : attrs.product = some p) (hdev : p ∈ deviceTypes)
    (hacc : is_accessory x.product_name = true) :
    x ∉ mainFilter df attrs := by
  intro hx
  have h1 : x ∈ accessoryStage attrs.product df :=
    mem_categoryStage (mem_brandStage
      (mem_maxPriceFilter (mem_minPriceFilter hx)))
  rw [hp] at h1
  simp only [accessoryStage] at h1
  rw [if_pos hdev] at h1
  have h2 := (List.mem_filter.mp h1).2
  rw [hacc] at h2
  simp at h2

/-- Witness for C7: an accessory listing under a phone query is not in the
main filter pass. -/
theorem accessory_excluded_from_filter_pass_witness :
    (⟨some "phone", none, none, ⟨none, some 500, none⟩, [], none⟩ :
        QueryAttrs).product = some "phone" ∧
    "phone" ∈ deviceTypes ∧
    is_accessory "iphone case" = true ∧
    (⟨"iphone case", 300, 0⟩ : Listing) ∉
      mainFilter [⟨"iphone case", 300, 0⟩, ⟨"iphone 13", 400, 4⟩]
        ⟨some "phone", none, none, ⟨none, some 500, none⟩, [], none⟩ :=
  ⟨rfl, by decide, by decide,
    accessory_excluded_from_filter_pass
      [⟨"iphone case", 300, 0⟩, ⟨"iphone 13", 400, 4⟩]
      ⟨some "phone", none, none, ⟨none, some 500, none⟩, [], none⟩
      ⟨"iphone case", 300, 0⟩ "phone" rfl (by decide) (by decide)⟩

/-- C2 counterexample: a catalog whose only listing satisfies the max-price
bound but is an accessory.  The main filter pass empties the set, and the
fallback — which reapplies the accessory filter — is also empty, so the
final result is empty even though a raw listing satisfies the budget;
this refutes the unconditional non-empty-output law. -/
theorem search_fallback_budget_cex :
    (∃ l ∈ ([⟨"iphone case", 300, 0⟩] : List Listing),
        l.price ≤ ((500 : ℕ) : ℚ)) ∧
    mainFilter [⟨"iphone case", 300, 0⟩]
      ⟨some "phone", none, none, ⟨none, some 500, none⟩, [], none⟩ = [] ∧
    search_products_enhanced [⟨"iphone case", 300, 0⟩]
      ⟨some "phone", none, none, ⟨none, some 500, none⟩, [], none⟩ 20 = [] := by
  refine ⟨⟨⟨"iphone case", 300, 0⟩, ?_, ?_⟩, by decide, by decide⟩
  · exact List.mem_singleton.mpr rfl
  · norm_num

/-- C2 (amended): if the main filter pass empties the candidate set, the
final result of `search_products_enhanced` (for a positive `top_n`) is
non-empty whenever some listing of the original catalog satisfies the
max-price bound and additionally survives the accessory filter that the
fallback reapplies (for a device-set category; for other categories no
accessory condition is needed). -/
theorem search_fallback_nonempty_amended
    (df : List Listing) (attrs : QueryAttrs) (top_n m : ℕ) (l : Listing)
    (hn : 0 < top_n) (hmax : attrs.price_range.max = some m) (hm : m ≠ 0)
    (hempty : mainFilter df attrs = [])
    (hl : l ∈ df) (hprice : l.price ≤ (m : ℚ))
    (hacc : ∀ p, attrs.product = some p → p ∈ deviceTypes →
      is_accessory l.product_name = false) :
    search_products_enhanced df attrs top_n ≠ [] := by
  have hstage : l ∈ accessoryStage attrs.product df := by
    cases hprod : attrs.product with
    | none => simpa [accessoryStage] using hl
    | some p =>
      simp only [accessoryStage]
      by_cases hdev : p ∈ deviceTypes
      · rw [if_pos hdev]
        refine List.mem_filter.mpr ⟨hl, ?_⟩
        rw [hacc p hprod hdev]
        rfl
      · rw [if_neg hdev]
        exact hl
  have hfb : l ∈ fallbackFilter df attrs := by
    simp only [fallbackFilter, hmax, maxPriceFilter]
    rw [if_neg hm]
    exact List.mem_filter.mpr ⟨hstage, decide_eq_true hprice⟩
  have hdfe : df.isEmpty = false := by
    cases hdfe : df.isEmpty with
    | false => rfl
    | true =>
      rw [List.isEmpty_iff] at hdfe
      subst hdfe
      cases hl
  have hfbe : (fallbackFilter df attrs).isEmpty = false := by
    cases hh : (fallbackFilter df attrs).isEmpty with
    | false => rfl
    | true =>
      rw [List.isEmpty_iff] at hh
      rw [hh] at hfb
      cases hfb
  simp only [search_products_enhanced, hdfe, Bool.false_eq_true, if_false,
    hempty, List.isEmpty_nil, if_true, hfbe]
  rw [← List.length_pos, List.length_take, List.length_mergeSort]
  have hpos : 0 < (fallbackFilter df attrs).length :=
    List.length_pos.mpr (List.ne_nil_of_mem hfb)
  omega

/-- Witness for the amended C2 theorem: the min-price bound empties the
main pass, and the fallback recovers the non-accessory listing that fits
the budget. -/
theorem search_fallback_nonempty_amended_witness :
    0 < 20 ∧
    (⟨some "phone", none, none, ⟨some 400, some 500, none⟩, [], none⟩ :
        QueryAttrs).price_range.max = some 500 ∧
    (500 : ℕ) ≠ 0 ∧
    mainFilter [⟨"samsung phone", 300, 0⟩]
      ⟨some "phone", none, none, ⟨some 400, some 500, none⟩, [], none⟩ = [] ∧
    (⟨"samsung phone", 300, 0⟩ : Listing) ∈
      ([⟨"samsung phone", 300, 0⟩] : List Listing) ∧
    (⟨"samsung phone", 300, 0⟩ : Listing).price ≤ ((500 : ℕ) : ℚ) ∧
    search_products_enhanced [⟨"samsung phone", 300, 0⟩]
      ⟨some "phone", none, none, ⟨some 400, some 500, none⟩, [], none⟩ 20 ≠ [] :=
  ⟨by decide, rfl, by decide, by decide, by decide, by norm_num,
    search_fallback_nonempty_amended [⟨"samsung phone", 300, 0⟩]
      ⟨some "phone", none, none, ⟨some 400, some 500, none⟩, [], none⟩
      20 500 ⟨"samsung phone", 300, 0⟩ (by decide) rfl (by decide)
      (by decide) (by decide) (by norm_num)
      (fun p hp hdev => by
        injection hp with h
        subst h
        decide)⟩

/-! ### Ordering lemmas for the final sort -/

theorem scoreLe_trans (attrs : QueryAttrs) (a b c : Listing)
    (hab : scoreLe attrs a b) (hbc : scoreLe attrs b c) : scoreLe attrs a c := by
  simp only [scoreLe, decide_eq_true_eq] at hab hbc ⊢
  rcases hab with h1 | h1
  · rcases hbc with h2 | h2
    · exact Or.inl (h2.trans h1)
    · exact Or.inl (h2.1 ▸ h1)
  · rcases hbc with h2 | h2
    · exact Or.inl (by rw [h1.1]; exact h2)
    · exact Or.inr ⟨h1.1.trans h2.1, h1.2.trans h2.2⟩

theorem scoreLe_total (attrs : QueryAttrs) (a b : Listing) :
    scoreLe attrs a b || scoreLe attrs b a := by
  simp only [scoreLe, Bool.or_eq_true, decide_eq_true_eq]
  rcases lt_trichotomy (calculate_relevance_score a attrs)
      (calculate_relevance_score b attrs) with h | h | h
  · exact Or.inr (Or.inl h)
  · rcases le_total a.price b.price with hp | hp
    · exact Or.inl (Or.inr ⟨h, hp⟩)
    · exact Or.inr (Or.inr ⟨h.symm, hp⟩)
  · exact Or.inl (Or.inl h)

/-- C8: the output of `search_products_enhanced` is ordered by relevance
score descending with ties broken by lower price first, and is truncated to
at most `top_n` rows. -/
theorem ranked_output_sorted_and_truncated (df : List Listing)
    (attrs : QueryAttrs) (top_n : ℕ) :
    (search_products_enhanced df attrs top_n).Sorted (rankRel attrs) ∧
    (search_products_enhanced df attrs top_n).length ≤ top_n := by
  simp only [search_products_enhanced]
  cases hdf : df.isEmpty with
  | true =>
    simp only [if_true]
    rw [List.isEmpty_iff] at hdf
    subst hdf
    exact ⟨List.sorted_nil, by simp⟩
  | false =>
    simp only [Bool.false_eq_true, if_false]
    generalize (if (mainFilter df attrs).isEmpty then fallbackFilter df attrs
      else mainFilter df attrs) = r
    cases hre : r.isEmpty with
    | true =>
      rw [List.isEmpty_iff] at hre
      subst hre
      simp
    | false =>
      simp only [Bool.false_eq_true, if_false]
      constructor
      · have hs := List.sorted_mergeSort
          (fun a b c => scoreLe_trans attrs a b c)
          (fun a b => scoreLe_total attrs a b) r
        have hs2 : (r.mergeSort (scoreLe attrs)).Pairwise (rankRel attrs) :=
          hs.imp (fun h => of_decide_eq_true h)
        exact hs2.sublist (List.take_sublist _ _)
      · exact List.length_take_le _ _

/-- C5 (Scenario D): on the raw price string `"29,900 EGP"` the general
cleaner yields `29900.0`, while the Amazon minor-unit cleaner applies the
divide-by-100 policy and yields `299.0`. -/
theorem scenario_d_price_cleaning :
    clean_price_egp (.str "29,900 EGP") = some 29900 ∧
    clean_price_amazon (.str "29,900 EGP") = some 299 := by
  constructor
  · show cleanPriceString "29,900 EGP" = some 29900
    have h1 : cleanStage1 "29,900 EGP" = ['2', '9', ',', '9', '0', '0'] := rfl
    have h2 : cleanStage2 ['2', '9', ',', '9', '0', '0'] =
        ['2', '9', '9', '0', '0'] := rfl
    have h3 : floatParse ['2', '9', '9', '0', '0'] =
        some (1 * (((29900 : ℕ) : ℚ) + ((0 : ℕ) : ℚ) / 10 ^ (0 : ℕ)) * 1) := rfl
    have h4 : (1 * (((29900 : ℕ) : ℚ) + ((0 : ℕ) : ℚ) / 10 ^ (0 : ℕ)) * 1) =
        (29900 : ℚ) := by norm_num
    rw [h4] at h3
    simp only [cleanPriceString, h1, h2, h3]
    norm_num [round2, round_eq]
    rintro (h | ⟨h, -⟩) <;> exact absurd h (by decide)
  · show some (round2 (((29900 : ℕ) : ℚ) / 100)) = some 299
    norm_num [round2, round_eq]

/-! ### Lemmas for the price-string cleaning pipeline -/

theorem digitChar_toUpper (d : Fin 10) : (digitChar d).toUpper = digitChar d := by
  revert d; decide

theorem digitChar_not_space (d : Fin 10) : isSpaceChar (digitChar d) = false := by
  revert d; decide

theorem digitChar_not_startable (d : Fin 10) :
    tokenStartable (digitChar d) = false := by
  revert d; decide

theorem digitChar_isDigit (d : Fin 10) : (digitChar d).isDigit = true := by
  revert d; decide

theorem digitChar_ne_dot (d : Fin 10) : digitChar d ≠ '.' := by
  revert d; decide

theorem digitChar_keep (d : Fin 10) :
    (!(digitChar d == ',' || isSpaceChar (digitChar d))) = true := by
  revert d; decide

theorem digitChar_toNat (d : Fin 10) : (digitChar d).toNat - 48 = d.val := by
  revert d; decide

theorem digitChar_ne_plus (d : Fin 10) : (digitChar d == '+') = false := by
  revert d; decide

theorem digitChar_ne_minus (d : Fin 10) : (digitChar d == '-') = false := by
  revert d; decide

theorem token_upper (i : Fin 6) : (tokenAt i).map Char.toUpper = tokenAt i := by
  revert i; decide

theorem token_rev_headNotSpace (i : Fin 6) :
    headNotSpace (tokenAt i).reverse = true := by
  revert i; decide

theorem token_strips (i : Fin 6) :
    stripCurrencyAux (tokenAt i).length (tokenAt i) = [] := by
  revert i; decide

theorem upper_digitChars (ds : List (Fin 10)) :
    (digitChars ds).map Char.toUpper = digitChars ds := by
  induction ds with
  | nil => rfl
  | cons d t ih =>
    simp only [digitChars, List.map_cons] at ih ⊢
    rw [digitChar_toUpper, ih]

theorem trimLeft_of_headNotSpace {l : List Char} (h : headNotSpace l = true) :
    trimLeft l = l := by
  cases l with
  | nil => rfl
  | cons c t =>
    simp only [headNotSpace, Bool.not_eq_true'] at h
    simp [trimLeft, h]

theorem headNotSpace_append {l1 : List Char} (l2 : List Char)
    (h : headNotSpace l1 = true) : headNotSpace (l1 ++ l2) = true := by
  cases l1 with
  | nil => cases h
  | cons c t => exact h

theorem trimChars_of {l : List Char} (h1 : headNotSpace l = true)
    (h2 : headNotSpace l.reverse = true) : trimChars l = l := by
  unfold trimChars
  rw [trimLeft_of_headNotSpace h2, List.reverse_reverse,
    trimLeft_of_headNotSpace h1]

theorem trimChars_append_space {l : List Char} (h1 : headNotSpace l = true)
    (h2 : headNotSpace l.reverse = true) : trimChars (l ++ [' ']) = l := by
  unfold trimChars
  simp only [List.reverse_append, List.reverse_cons, List.reverse_nil,
    List.nil_append, List.singleton_append]
  rw [show trimLeft (' ' :: l.reverse) = trimLeft l.reverse from rfl]
  rw [trimLeft_of_headNotSpace h2, List.reverse_reverse,
    trimLeft_of_headNotSpace h1]

theorem headNotSpace_digitChars_cons (d : Fin 10) (t : List (Fin 10)) :
    headNotSpace (digitChars (d :: t)) = true := by
  simp only [digitChars, List.map_cons, headNotSpace, digitChar_not_space]
  rfl

theorem headNotSpace_rev_digits (l : List Char) {ds : List (Fin 10)}
    (h : ds ≠ []) : headNotSpace ((l ++ digitChars ds).reverse) = true := by
  rw [List.reverse_append]
  obtain ⟨d, t, hd⟩ : ∃ d t, ds.reverse = d :: t := by
    cases hr : ds.reverse with
    | nil =>
      exfalso
      apply h
      simpa using congrArg List.reverse hr
    | cons d t => exact ⟨d, t, rfl⟩
  have hrev : (digitChars ds).reverse = digitChars (d :: t) := by
    rw [digitChars, ← List.map_reverse, hd]
    rfl
  rw [hrev]
  exact headNotSpace_append _ (headNotSpace_digitChars_cons d t)

theorem headNotSpace_rev_token (l : List Char) (i : Fin 6) :
    headNotSpace ((l ++ tokenAt i).reverse) = true := by
  rw [List.reverse_append]
  exact headNotSpace_append _ (token_rev_headNotSpace i)

theorem find?_none_of_not_startable {c : Char} (rest : List Char)
    (h : tokenStartable c = false) :
    currencyTokens.find? (fun t => t.isPrefixOf (c :: rest)) = none := by
  rw [List.find?_eq_none]
  intro t ht
  have h2 := (List.any_eq_false.mp h) t ht
  cases t with
  | nil => exact absurd rfl h2
  | cons c' t' =>
    intro hpre
    rw [List.isPrefixOf] at hpre
    rw [Bool.and_eq_true] at hpre
    exact h2 hpre.1

theorem stripCurrencyAux_append (l m : List Char) (k : ℕ)
    (h : ∀ c ∈ l, tokenStartable c = false) :
    stripCurrencyAux (l.length + k) (l ++ m) = l ++ stripCurrencyAux k m := by
  induction l with
  | nil => simp
  | cons c t ih =>
    have hc := h c (List.mem_cons_self _ _)
    have hfind := find?_none_of_not_startable (t ++ m) hc
    simp only [List.cons_append, List.length_cons]
    rw [show t.length + 1 + k = (t.length + k) + 1 from by omega]
    simp only [stripCurrencyAux, hfind]
    rw [ih (fun c hc' => h c (List.mem_cons_of_mem _ hc'))]

theorem stripCurrency_split (l m : List Char)
    (h : ∀ c ∈ l, tokenStartable c = false) :
    stripCurrency (l ++ m) = l ++ stripCurrency m := by
  unfold stripCurrency
  rw [List.length_append]
  exact stripCurrencyAux_append l m m.length h

theorem stripCurrency_token (i : Fin 6) : stripCurrency (tokenAt i) = [] :=
  token_strips i

theorem splitOnDot_no_dot {l : List Char} (h : ∀ c ∈ l, c ≠ '.') :
    splitOnDot l = [l] := by
  induction l with
  | nil => rfl
  | cons c t ih =>
    have hc : c ≠ '.' := h c (List.mem_cons_self _ _)
    simp only [splitOnDot, ih (fun c' hc' => h c' (List.mem_cons_of_mem _ hc'))]
    rw [if_neg hc]

theorem splitOnDot_dot_mid {l1 l2 : List Char} (h1 : ∀ c ∈ l1, c ≠ '.')
    (h2 : ∀ c ∈ l2, c ≠ '.') :
    splitOnDot (l1 ++ '.' :: l2) = [l1, l2] := by
  induction l1 with
  | nil =>
    simp [List.nil_append, splitOnDot, splitOnDot_no_dot h2]
  | cons c t ih =>
    have hc : c ≠ '.' := h1 c (List.mem_cons_self _ _)
    have ih' := ih (fun c' hc' => h1 c' (List.mem_cons_of_mem _ hc'))
    simp only [List.cons_append, splitOnDot, List.append_eq, ih']
    rw [if_neg hc]

theorem digitChars_no_dot (ds : List (Fin 10)) : ∀ c ∈ digitChars ds, c ≠ '.' := by
  intro c hc
  obtain ⟨d, _, rfl⟩ := List.mem_map.mp hc
  exact digitChar_ne_dot d

theorem filter_keep_digitChars (ds : List (Fin 10)) :
    (digitChars ds).filter (fun c => !(c == ',' || isSpaceChar c)) = digitChars ds := by
  rw [List.filter_eq_self]
  intro c hc
  obtain ⟨d, _, rfl⟩ := List.mem_map.mp hc
  exact digitChar_keep d

theorem takeDigits_digits_nil (ds : List (Fin 10)) :
    takeDigits (digitChars ds) = (digitChars ds, []) := by
  induction ds with
  | nil => rfl
  | cons d t ih =>
    simp only [digitChars, List.map_cons] at ih ⊢
    simp only [takeDigits, digitChar_isDigit, if_true, ih]

theorem takeDigits_digits_cons (ds : List (Fin 10)) (c : Char) (r : List Char)
    (hc : c.isDigit = false) :
    takeDigits (digitChars ds ++ c :: r) = (digitChars ds, c :: r) := by
  induction ds with
  | nil =>
    simp only [digitChars, List.map_nil, List.nil_append, takeDigits, hc,
      Bool.false_eq_true, if_false]
  | cons d t ih =>
    simp only [digitChars, List.map_cons, List.cons_append] at ih ⊢
    simp only [takeDigits, digitChar_isDigit, if_true, ih]

theorem digitsToNat_digitChars (ds : List (Fin 10)) :
    digitsToNat (digitChars ds) = digitsVal ds := by
  suffices h : ∀ a : ℕ,
      (digitChars ds).foldl (fun a c => 10 * a + (c.toNat - 48)) a =
        ds.foldl (fun a d => 10 * a + d.val) a from h 0
  induction ds with
  | nil => intro a; rfl
  | cons d t ih =>
    intro a
    simp only [digitChars, List.map_cons, List.foldl_cons] at ih ⊢
    rw [digitChar_toNat]
    exact ih _

theorem floatParseSign_digits (ds : List (Fin 10)) (r : List Char)
    (h : ds ≠ []) :
    floatParseSign (digitChars ds ++ r) = (1, digitChars ds ++ r) := by
  obtain ⟨d, t, rfl⟩ : ∃ d t, ds = d :: t := by
    cases ds with
    | nil => exact absurd rfl h
    | cons d t => exact ⟨d, t, rfl⟩
  show floatParseSign (digitChar d :: (digitChars t ++ r)) = _
  simp only [floatParseSign, digitChar_ne_plus, digitChar_ne_minus,
    Bool.false_eq_true, if_false]
  rfl

theorem digitChars_isEmpty_cons (d : Fin 10) (t : List (Fin 10)) :
    (digitChars (d :: t)).isEmpty = false := rfl

theorem floatParse_digits {ds : List (Fin 10)} (h : ds ≠ []) :
    floatParse (digitChars ds) = some ((digitsVal ds : ℚ)) := by
  have hsign := floatParseSign_digits ds [] h
  rw [List.append_nil] at hsign
  simp only [floatParse, hsign, takeDigits_digits_nil]
  obtain ⟨d, t, rfl⟩ : ∃ d t, ds = d :: t := by
    cases ds with
    | nil => exact absurd rfl h
    | cons d t => exact ⟨d, t, rfl⟩
  simp only [floatParseFrac, digitChars_isEmpty_cons, Bool.false_and,
    Bool.false_eq_true, if_false, floatParseExp, digitsToNat_digitChars]
  norm_num [digitsToNat]

theorem floatParse_digits_dot {ds fd : List (Fin 10)} (h : ds ≠ []) :
    floatParse (digitChars ds ++ '.' :: digitChars fd) =
      some ((digitsVal ds : ℚ) + (digitsVal fd : ℚ) / 10 ^ fd.length) := by
  have hsign := floatParseSign_digits ds ('.' :: digitChars fd) h
  simp only [floatParse, hsign,
    takeDigits_digits_cons ds '.' (digitChars fd) (by decide)]
  obtain ⟨d, t, rfl⟩ : ∃ d t, ds = d :: t := by
    cases ds with
    | nil => exact absurd rfl h
    | cons d t => exact ⟨d, t, rfl⟩
  simp only [floatParseFrac, takeDigits_digits_nil, digitChars_isEmpty_cons,
    Bool.false_and, Bool.false_eq_true, if_false, floatParseExp,
    digitsToNat_digitChars, List.length_map]
  norm_num [digitChars, List.length_map]

theorem comma_not_startable : tokenStartable ',' = false := by decide

theorem dot_not_startable : tokenStartable '.' = false := by decide

theorem space_not_startable : tokenStartable ' ' = false := by decide

theorem stripCurrency_nil : stripCurrency [] = [] := rfl

theorem numericChars_not_startable (f : PriceForm) :
    ∀ c ∈ numericChars f, tokenStartable c = false := by
  intro c hc
  unfold numericChars at hc
  rcases List.mem_append.mp hc with hc | hc
  · obtain ⟨d, _, rfl⟩ := List.mem_map.mp hc
    exact digitChar_not_startable d
  · cases hs : f.sep with
    | none => rw [hs] at hc; cases hc
    | some sd =>
      rw [hs] at hc
      rcases List.mem_cons.mp hc with hc | hc
      · subst hc
        cases sd.1 with
        | comma => exact comma_not_startable
        | dot => exact dot_not_startable
      · obtain ⟨d, _, rfl⟩ := List.mem_map.mp hc
        exact digitChar_not_startable d

theorem upper_numericChars (f : PriceForm) :
    (numericChars f).map Char.toUpper = numericChars f := by
  unfold numericChars
  rw [List.map_append, upper_digitChars]
  congr 1
  cases f.sep with
  | none => rfl
  | some sd =>
    rw [List.map_cons, upper_digitChars]
    congr 1
    cases sd.1 <;> rfl

theorem headNotSpace_numericChars {f : PriceForm} (hint : f.intPart ≠ []) :
    headNotSpace (numericChars f) = true := by
  obtain ⟨d0, ip', hip⟩ : ∃ d0 ip', f.intPart = d0 :: ip' := by
    cases hc : f.intPart with
    | nil => exact absurd hc hint
    | cons a b => exact ⟨a, b, rfl⟩
  unfold numericChars
  rw [hip]
  exact headNotSpace_append _ (headNotSpace_digitChars_cons d0 ip')

theorem headNotSpace_rev_numericChars {f : PriceForm} (hint : f.intPart ≠ [])
    (hsep : ∀ sd ∈ f.sep, sd.2 ≠ ([] : List (Fin 10))) :
    headNotSpace (numericChars f).reverse = true := by
  unfold numericChars
  cases hs : f.sep with
  | none =>
    rw [List.append_nil, show digitChars f.intPart = [] ++ digitChars f.intPart from rfl]
    exact headNotSpace_rev_digits [] hint
  | some sd =>
    show headNotSpace
      (digitChars f.intPart ++ (sd.1.char :: digitChars sd.2)).reverse = true
    rw [show sd.1.char :: digitChars sd.2 = [sd.1.char] ++ digitChars sd.2 from rfl,
      ← List.append_assoc]
    exact headNotSpace_rev_digits _ (hsep sd (by rw [hs]; exact rfl))

theorem cleanStage1_render (f : PriceForm) (hint : f.intPart ≠ [])
    (hsep : ∀ sd ∈ f.sep, sd.2 ≠ ([] : List (Fin 10))) :
    cleanStage1 f.render = numericChars f := by
  have hh := headNotSpace_numericChars hint
  have hr := headNotSpace_rev_numericChars hint hsep
  have hns := numericChars_not_startable f
  cases hcur : f.currency with
  | none =>
    have hdata : (f.render).data = numericChars f := by
      simp only [PriceForm.render, numericChars, hcur, List.append_nil]
    unfold cleanStage1
    rw [hdata, upper_numericChars, trimChars_of hh hr]
    have hstrip : stripCurrency (numericChars f) = numericChars f := by
      have h0 := stripCurrency_split (numericChars f) [] hns
      rw [List.append_nil, stripCurrency_nil, List.append_nil] at h0
      exact h0
    rw [hstrip, trimChars_of hh hr]
  | some sc =>
    obtain ⟨sp, i⟩ := sc
    cases sp with
    | true =>
      have hdata : (f.render).data = (numericChars f ++ [' ']) ++ tokenAt i := by
        simp only [PriceForm.render, numericChars, hcur, if_pos,
          List.append_assoc, List.singleton_append]
      unfold cleanStage1
      rw [hdata]
      have hup : ((numericChars f ++ [' ']) ++ tokenAt i).map Char.toUpper =
          (numericChars f ++ [' ']) ++ tokenAt i := by
        rw [List.map_append, List.map_append, upper_numericChars, token_upper]
        rfl
      rw [hup]
      have hh2 : headNotSpace ((numericChars f ++ [' ']) ++ tokenAt i) = true :=
        headNotSpace_append _ (headNotSpace_append _ hh)
      have hr2 : headNotSpace (((numericChars f ++ [' ']) ++ tokenAt i)).reverse = true :=
        headNotSpace_rev_token _ i
      rw [trimChars_of hh2 hr2]
      have hns2 : ∀ c ∈ numericChars f ++ [' '], tokenStartable c = false := by
        intro c hc
        rcases List.mem_append.mp hc with hc | hc
        · exact hns c hc
        · rcases List.mem_singleton.mp hc with rfl
          exact space_not_startable
      rw [stripCurrency_split _ _ hns2, stripCurrency_token, List.append_nil]
      exact trimChars_append_space hh hr
    | false =>
      have hdata : (f.render).data = numericChars f ++ tokenAt i := by
        simp [PriceForm.render, numericChars, hcur, List.append_assoc]
      unfold cleanStage1
      rw [hdata]
      have hup : (numericChars f ++ tokenAt i).map Char.toUpper =
          numericChars f ++ tokenAt i := by
        rw [List.map_append, upper_numericChars, token_upper]
      rw [hup]
      have hh2 : headNotSpace (numericChars f ++ tokenAt i) = true :=
        headNotSpace_append _ hh
      have hr2 : headNotSpace ((numericChars f ++ tokenAt i)).reverse = true :=
        headNotSpace_rev_token _ i
      rw [trimChars_of hh2 hr2]
      rw [stripCurrency_split _ _ hns, stripCurrency_token, List.append_nil]
      exact trimChars_of hh hr

theorem digitChars_append (a b : List (Fin 10)) :
    digitChars (a ++ b) = digitChars a ++ digitChars b := by
  simp [digitChars]

theorem cleanStage2_none {f : PriceForm} (hs : f.sep = none) :
    cleanStage2 (numericChars f) = digitChars f.intPart := by
  have hnum : numericChars f = digitChars f.intPart := by
    unfold numericChars
    rw [hs]
    exact List.append_nil _
  rw [hnum]
  simp only [cleanStage2, splitOnDot_no_dot (digitChars_no_dot f.intPart)]
  rw [if_neg (by norm_num)]
  exact filter_keep_digitChars _

theorem cleanStage2_comma {f : PriceForm} {fd : List (Fin 10)}
    (hs : f.sep = some (.comma, fd)) :
    cleanStage2 (numericChars f) = digitChars (f.intPart ++ fd) := by
  have hnum : numericChars f = digitChars f.intPart ++ ',' :: digitChars fd := by
    unfold numericChars
    rw [hs]
    rfl
  rw [hnum]
  have hnodot : ∀ c ∈ digitChars f.intPart ++ ',' :: digitChars fd, c ≠ '.' := by
    intro c hc
    rcases List.mem_append.mp hc with hc | hc
    · exact digitChars_no_dot _ c hc
    · rcases List.mem_cons.mp hc with rfl | hc
      · decide
      · exact digitChars_no_dot _ c hc
  simp only [cleanStage2, splitOnDot_no_dot hnodot]
  rw [if_neg (by norm_num)]
  rw [List.filter_append, List.filter_cons]
  rw [show (!(',' == ',' || isSpaceChar ',')) = false from by decide]
  simp only [Bool.false_eq_true, if_false]
  rw [filter_keep_digitChars, filter_keep_digitChars, digitChars_append]

theorem cleanStage2_dot {f : PriceForm} {fd : List (Fin 10)}
    (hs : f.sep = some (.dot, fd)) :
    cleanStage2 (numericChars f) = digitChars f.intPart ++ '.' :: digitChars fd := by
  have hnum : numericChars f = digitChars f.intPart ++ '.' :: digitChars fd := by
    unfold numericChars
    rw [hs]
    rfl
  rw [hnum]
  simp only [cleanStage2,
    splitOnDot_dot_mid (digitChars_no_dot f.intPart) (digitChars_no_dot fd)]
  rw [if_neg (by norm_num)]
  rw [List.filter_append, List.filter_cons]
  rw [show (!('.' == ',' || isSpaceChar '.')) = true from by decide]
  simp only [if_true]
  rw [filter_keep_digitChars, filter_keep_digitChars]

theorem digitChars_ne_nil_or_dot {ds : List (Fin 10)} (h : ds ≠ [])
    (r : List Char) :
    ¬(digitChars ds ++ r = [] ∨ digitChars ds ++ r = ['.']) := by
  obtain ⟨d, t, rfl⟩ : ∃ d t, ds = d :: t := by
    cases ds with
    | nil => exact absurd rfl h
    | cons a b => exact ⟨a, b, rfl⟩
  rintro (hcon | hcon)
  · rw [show digitChars (d :: t) ++ r = digitChar d :: (digitChars t ++ r)
      from rfl] at hcon
    cases hcon
  · rw [show digitChars (d :: t) ++ r = digitChar d :: (digitChars t ++ r)
      from rfl] at hcon
    exact digitChar_ne_dot d (List.head_eq_of_cons_eq hcon)

/-- Core evaluation of `clean_price_egp` on every well-formed rendered
price string: the pipeline parses exactly the denoted value and applies
the plausibility bound. -/
theorem clean_price_form_eval (f : PriceForm) (hwf : f.WF) :
    clean_price_egp (.str f.render) =
      if 1/100 ≤ f.value ∧ f.value ≤ 1000000 then some (round2 f.value)
      else none := by
  obtain ⟨hint, hsep⟩ := hwf
  obtain ⟨d0, ip', hip⟩ : ∃ d0 ip', f.intPart = d0 :: ip' := by
    cases hc : f.intPart with
    | nil => exact absurd hc hint
    | cons a b => exact ⟨a, b, rfl⟩
  have hne : f.render ≠ "" := by
    intro hcon
    have hdat : (f.render).data = [] := by rw [hcon]
    rw [show (f.render).data = digitChars f.intPart ++
        ((match f.sep with
          | some sd => sd.1.char :: digitChars sd.2
          | none => []) ++
         (match f.currency with
          | some sc => (if sc.1 then [' '] else []) ++ tokenAt sc.2
          | none => [])) from by simp [PriceForm.render, List.append_assoc],
      hip] at hdat
    cases hdat
  show (if f.render = "" then none else cleanPriceString f.render) = _
  rw [if_neg hne]
  simp only [cleanPriceString, cleanStage1_render f hint hsep]
  have hnem : (numericChars f).isEmpty = false := by
    unfold numericChars
    rw [hip]
    rfl
  simp only [hnem, Bool.false_eq_true, if_false]
  rcases hs : f.sep with _ | ⟨s, fd⟩
  · rw [cleanStage2_none hs]
    have h1 := digitChars_ne_nil_or_dot hint ([] : List Char)
    rw [List.append_nil] at h1
    rw [if_neg h1, floatParse_digits hint]
    have hval : f.value = (digitsVal f.intPart : ℚ) := by
      unfold PriceForm.value
      rw [hs]
    rw [hval]
  · have hfd : fd ≠ [] := hsep (s, fd) (by rw [hs]; exact rfl)
    cases s with
    | comma =>
      rw [cleanStage2_comma hs]
      have hif : f.intPart ++ fd ≠ [] := by
        rw [hip]
        exact List.cons_ne_nil _ _
      have h1 := digitChars_ne_nil_or_dot hif ([] : List Char)
      rw [List.append_nil] at h1
      rw [if_neg h1, floatParse_digits hif]
      have hval : f.value = (digitsVal (f.intPart ++ fd) : ℚ) := by
        unfold PriceForm.value
        rw [hs]
      rw [hval]
    | dot =>
      rw [cleanStage2_dot hs]
      rw [if_neg (digitChars_ne_nil_or_dot hint ('.' :: digitChars fd))]
      rw [floatParse_digits_dot hint]
      have hval : f.value =
          (digitsVal f.intPart : ℚ) + (digitsVal fd : ℚ) / 10 ^ fd.length := by
        unfold PriceForm.value
        rw [hs]
      rw [hval]

theorem round2_bounds {v : ℚ} (h1 : 1/100 ≤ v) (h2 : v ≤ 1000000) :
    0 < round2 v ∧ 1/100 ≤ round2 v ∧ round2 v ≤ 1000000 := by
  have hlo : (1 : ℤ) ≤ round (v * 100) := by
    rw [round_eq]
    have hle : (3 : ℚ)/2 ≤ v * 100 + 1/2 := by linarith
    calc (1 : ℤ) = ⌊(3 : ℚ)/2⌋ := by norm_num
      _ ≤ ⌊v * 100 + 1/2⌋ := Int.floor_mono hle
  have hhi : round (v * 100) ≤ (100000000 : ℤ) := by
    rw [round_eq]
    have hle : v * 100 + 1/2 ≤ (100000000 : ℚ) + 1/2 := by linarith
    calc ⌊v * 100 + 1/2⌋ ≤ ⌊(100000000 : ℚ) + 1/2⌋ := Int.floor_mono hle
      _ = 100000000 := by norm_num
  have hlo' : (1 : ℚ) ≤ (round (v * 100) : ℤ) := by exact_mod_cast hlo
  have hhi' : ((round (v * 100) : ℤ) : ℚ) ≤ 100000000 := by exact_mod_cast hhi
  unfold round2
  refine ⟨?_, ?_, ?_⟩
  · exact div_pos (by linarith) (by norm_num)
  · exact (div_le_div_iff_of_pos_right (by norm_num)).mpr (by linarith)
  · exact (div_le_iff₀ (by norm_num)).mpr (by linarith)

/-- C4: on every input string of the form digits, an optional comma or dot
group of digits, and an optional currency marker, `clean_price_egp` returns
a positive float within the configured bound `0.01` to `1,000,000` (the
parsed value rounded to two decimals) whenever the parsed number is within
that bound, and an absent value (`pd.NA`) when it falls outside. -/
theorem clean_price_egp_form_bounded (f : PriceForm) (hwf : f.WF) :
    (1/100 ≤ f.value ∧ f.value ≤ 1000000 →
      clean_price_egp (.str f.render) = some (round2 f.value) ∧
      0 < round2 f.value ∧ 1/100 ≤ round2 f.value ∧ round2 f.value ≤ 1000000) ∧
    (¬(1/100 ≤ f.value ∧ f.value ≤ 1000000) →
      clean_price_egp (.str f.render) = none) := by
  constructor
  · intro hb
    refine ⟨?_, round2_bounds hb.1 hb.2⟩
    rw [clean_price_form_eval f hwf, if_pos hb]
  · intro hb
    rw [clean_price_form_eval f hwf, if_neg hb]

/-- Witness for C4 at the form rendering `"29,900 EGP"`. -/
theorem clean_price_egp_form_bounded_witness :
    (⟨[2, 9], some (.comma, [9, 0, 0]), some (true, 0)⟩ : PriceForm).WF ∧
    clean_price_egp
        (.str (⟨[2, 9], some (.comma, [9, 0, 0]), some (true, 0)⟩ :
          PriceForm).render) =
      some (round2
        (⟨[2, 9], some (.comma, [9, 0, 0]), some (true, 0)⟩ : PriceForm).value) :=
  have hwf : (⟨[2, 9], some (.comma, [9, 0, 0]), some (true, 0)⟩ : PriceForm).WF :=
    ⟨by decide, fun sd hsd => by
      simp only [Option.mem_def, Option.some.injEq] at hsd
      subst hsd
      decide⟩
  have hb : (1 : ℚ)/100 ≤
      (⟨[2, 9], some (.comma, [9, 0, 0]), some (true, 0)⟩ : PriceForm).value ∧
      (⟨[2, 9], some (.comma, [9, 0, 0]), some (true, 0)⟩ :
        PriceForm).value ≤ 1000000 := by
    show (1 : ℚ)/100 ≤ ((29900 : ℕ) : ℚ) ∧ ((29900 : ℕ) : ℚ) ≤ 1000000
    norm_num
  ⟨hwf, ((clean_price_egp_form_bounded _ hwf).1 hb).1⟩

end SmartShopping
